import Mathlib

set_option maxRecDepth 100000
set_option maxHeartbeats 1000000

/-!
Shallow embedding of the loose-object decoder in `src/object.rs` of the
`good_git` repository: the header parser, the blob and tree decoders, the
entry-kind classification, and the content hasher (SHA-1 over the canonical
envelope).  Byte buffers are modelled as `List Nat` (each element a byte
value), machine-integer parsing carries the explicit 2^64 bound of `usize`,
and every fallible operation returns `Except GitErr`.  A Rust runtime abort
(an out-of-bounds slice or an arithmetic-overflow failure) is modelled by the
distinguished outcome `GitErr.crashed`, kept separate from the ordinary
error results the code returns through `anyhow`.
-/

namespace GoodGit

/-- Outcomes of a failed decode.  The first seven constructors model the
error kinds of the design taxonomy as produced through `anyhow`; `crashed`
models a Rust runtime abort (slice-bound or arithmetic failure), which is not
an error return at all. -/
inductive GitErr where
  | headerFormat
  | sizeFormat
  | sizeMismatch
  | encoding
  | truncatedEntry
  | truncatedHash
  | unknownObjectType
  | crashed
deriving DecidableEq, Repr

/-- Mirror of `struct Blob { content: Vec<u8> }`. -/
structure Blob where
  content : List Nat
deriving DecidableEq, Repr

/-- Mirror of `struct File { mode, name, hash }`. -/
structure File where
  mode : String
  name : String
  hash : String
deriving DecidableEq, Repr

/-- Mirror of `struct Tree { files: Vec<File> }`. -/
structure Tree where
  files : List File
deriving DecidableEq, Repr

/-- Mirror of `enum Object { Blob(Blob), Tree(Tree) }`. -/
inductive Object where
  | blob (b : Blob)
  | tree (t : Tree)
deriving DecidableEq, Repr

deriving instance DecidableEq for Except

/-- Mirror of `File::type_str`: the match on the mode string. -/
def File.typeStr (f : File) : String :=
  if f.mode = "100644" then "blob"
  else if f.mode = "100755" then "blob"
  else if f.mode = "120000" then "symlink"
  else if f.mode = "40000" then "tree"
  else if f.mode = "160000" then "submodule"
  else "unknown"

/-- Spec-side refinement type: the `EntryKind` enumeration of the design
document (§4.5). -/
inductive EntryKind where
  | regularFile
  | executableFile
  | symlink
  | subtree
  | submodule
  | unknown
deriving DecidableEq, Repr

/-- Spec-side refinement definition, following the words of §4.5 of the
design document: the mode table mapping each mode string to an `EntryKind`,
any other value to `unknown`. -/
def specEntryKind (mode : String) : EntryKind :=
  if mode = "100644" then .regularFile
  else if mode = "100755" then .executableFile
  else if mode = "120000" then .symlink
  else if mode = "40000" then .subtree
  else if mode = "160000" then .submodule
  else .unknown

/-- Rendering of a spec-side `EntryKind` as the type string the code uses;
`regularFile` and `executableFile` both render as `"blob"`. -/
def kindRender : EntryKind → String
  | .regularFile => "blob"
  | .executableFile => "blob"
  | .symlink => "symlink"
  | .subtree => "tree"
  | .submodule => "submodule"
  | .unknown => "unknown"

/-! ## UTF-8 encoding and validating decoding

`std::str::from_utf8` accepts exactly the valid UTF-8 encodings (rejecting
overlong forms, surrogate code points and values above U+10FFFF); we model it
with a validating decoder returning `Option`. -/

/-- Encode one scalar value in UTF-8 (1 to 4 bytes). -/
def utf8EncodeChar (c : Char) : List Nat :=
  let n := c.toNat
  if n < 128 then [n]
  else if n < 2048 then [192 + n / 64, 128 + n % 64]
  else if n < 65536 then [224 + n / 4096, 128 + n / 64 % 64, 128 + n % 64]
  else [240 + n / 262144, 128 + n / 4096 % 64, 128 + n / 64 % 64, 128 + n % 64]

/-- Encode a string in UTF-8, as the byte sequence Rust's `str::as_bytes`
exposes. -/
def utf8Encode (s : String) : List Nat :=
  s.toList.flatMap utf8EncodeChar

/-- Validating UTF-8 decoder: the set of byte lists it accepts, and the
characters it produces, match `std::str::from_utf8`.  Overlong encodings,
surrogates, code points above U+10FFFF, stray or missing continuation bytes
are all rejected. -/
def utf8Dec : List Nat → Option (List Char)
  | [] => some []
  | b0 :: rest =>
    if b0 < 128 then (utf8Dec rest).map (fun cs => Char.ofNat b0 :: cs)
    else if b0 < 194 then none
    else if b0 < 224 then
      match rest with
      | b1 :: rest2 =>
        if 128 ≤ b1 ∧ b1 < 192 then
          (utf8Dec rest2).map (fun cs => Char.ofNat ((b0 - 192) * 64 + (b1 - 128)) :: cs)
        else none
      | [] => none
    else if b0 < 240 then
      match rest with
      | b1 :: b2 :: rest2 =>
        if 128 ≤ b1 ∧ b1 < 192 ∧ 128 ≤ b2 ∧ b2 < 192 then
          let n := (b0 - 224) * 4096 + (b1 - 128) * 64 + (b2 - 128)
          if n < 2048 then none
          else if 55296 ≤ n ∧ n < 57344 then none
          else (utf8Dec rest2).map (fun cs => Char.ofNat n :: cs)
        else none
      | _ => none
    else if b0 < 245 then
      match rest with
      | b1 :: b2 :: b3 :: rest2 =>
        if 128 ≤ b1 ∧ b1 < 192 ∧ 128 ≤ b2 ∧ b2 < 192 ∧ 128 ≤ b3 ∧ b3 < 192 then
          let n := (b0 - 240) * 262144 + (b1 - 128) * 4096 + (b2 - 128) * 64 + (b3 - 128)
          if n < 65536 then none
          else if 1114111 < n then none
          else (utf8Dec rest2).map (fun cs => Char.ofNat n :: cs)
        else none
      | _ => none
    else none

/-- Mirror of `std::str::from_utf8` viewed as a partial byte-list-to-string
function. -/
def utf8DecodeStr (l : List Nat) : Option String :=
  (utf8Dec l).map (fun cs => String.mk cs)

/-! ## Hex encoding (the `hex::encode` collaborator) -/

/-- One lowercase hex digit. -/
def hexChar (n : Nat) : Char :=
  if n < 10 then Char.ofNat (48 + n) else Char.ofNat (87 + n)

/-- Mirror of `hex::encode`: two lowercase hex digits per byte. -/
def hexEncode (l : List Nat) : String :=
  String.mk (l.flatMap fun b => [hexChar (b / 16), hexChar (b % 16)])

/-! ## SHA-1 (the `sha1` collaborator)

The digest primitive consumed by `hash`, implemented over `Nat` with explicit
reduction modulo 2^32. -/

/-- Reduce modulo 2^32. -/
def m32 (x : Nat) : Nat := x % 4294967296

/-- Rotate a 32-bit word left by `n` (for `x < 2^32` and `0 < n < 32`). -/
def rotl (n x : Nat) : Nat := (x * 2 ^ n) % 4294967296 + x / 2 ^ (32 - n)

/-- SHA-1 round function `f_t`. -/
def sha1F (t b c d : Nat) : Nat :=
  if t < 20 then (b &&& c) ||| ((4294967295 - b) &&& d)
  else if t < 40 then b ^^^ c ^^^ d
  else if t < 60 then (b &&& c) ||| (b &&& d) ||| (c &&& d)
  else b ^^^ c ^^^ d

/-- SHA-1 round constant `K_t`. -/
def sha1K (t : Nat) : Nat :=
  if t < 20 then 0x5A827999
  else if t < 40 then 0x6ED9EBA1
  else if t < 60 then 0x8F1BBCDC
  else 0xCA62C1D6

/-- Big-endian 32-bit words from a byte list. -/
def toWords : List Nat → List Nat
  | a :: b :: c :: d :: rest => (((a * 256 + b) * 256 + c) * 256 + d) :: toWords rest
  | _ => []

/-- Extend the 16 message words by `k` further schedule words. -/
def extendWords (ws : List Nat) : Nat → List Nat
  | 0 => ws
  | k + 1 =>
    let L := ws.length
    let w := rotl 1 ((ws.getD (L - 3) 0) ^^^ (ws.getD (L - 8) 0) ^^^
                     (ws.getD (L - 14) 0) ^^^ (ws.getD (L - 16) 0))
    extendWords (ws ++ [w]) k

/-- One SHA-1 round on the five-word state. -/
def sha1Round (ws : List Nat) (st : Nat × Nat × Nat × Nat × Nat) (t : Nat) :
    Nat × Nat × Nat × Nat × Nat :=
  let (a, b, c, d, e) := st
  let temp := m32 (rotl 5 a + sha1F t b c d + e + sha1K t + ws.getD t 0)
  (temp, a, rotl 30 b, c, d)

/-- Compress one 64-byte chunk into the running state. -/
def sha1Compress (h : Nat × Nat × Nat × Nat × Nat) (chunk : List Nat) :
    Nat × Nat × Nat × Nat × Nat :=
  let ws := extendWords (toWords chunk) 64
  let (h0, h1, h2, h3, h4) := h
  let (a, b, c, d, e) := (List.range 80).foldl (sha1Round ws) (h0, h1, h2, h3, h4)
  (m32 (h0 + a), m32 (h1 + b), m32 (h2 + c), m32 (h3 + d), m32 (h4 + e))

/-- Split into 64-byte chunks; the fuel argument bounds the recursion and any
value at least the list length is ample. -/
def chunks64 : Nat → List Nat → List (List Nat)
  | 0, _ => []
  | _ + 1, [] => []
  | f + 1, l => l.take 64 :: chunks64 f (l.drop 64)

/-- Merkle–Damgård padding: a 0x80 byte, zeros to 56 mod 64, then the
bit length in 8 big-endian bytes. -/
def sha1Pad (msg : List Nat) : List Nat :=
  let len := msg.length
  let bits := len * 8
  msg ++ 128 :: List.replicate ((119 - len % 64) % 64) 0 ++
    [bits / 2 ^ 56 % 256, bits / 2 ^ 48 % 256, bits / 2 ^ 40 % 256,
     bits / 2 ^ 32 % 256, bits / 2 ^ 24 % 256, bits / 2 ^ 16 % 256,
     bits / 2 ^ 8 % 256, bits % 256]

/-- Big-endian bytes of one 32-bit word. -/
def wordBytes (w : Nat) : List Nat :=
  [w / 16777216 % 256, w / 65536 % 256, w / 256 % 256, w % 256]

/-- SHA-1 digest of a byte list, as 20 bytes. -/
def sha1 (msg : List Nat) : List Nat :=
  let padded := sha1Pad msg
  let h := (chunks64 padded.length padded).foldl sha1Compress
    (0x67452301, 0xEFCDAB89, 0x98BADCFE, 0x10325476, 0xC3D2E1F0)
  wordBytes h.1 ++ wordBytes h.2.1 ++ wordBytes h.2.2.1 ++
    wordBytes h.2.2.2.1 ++ wordBytes h.2.2.2.2

/-- Mirror of the free function `hash`: SHA-1 of the bytes, hex encoded. -/
def hash (s : List Nat) : String :=
  hexEncode (sha1 s)

/-- Mirror of `Blob::hash`: hash of `"blob <byte-length>\x00<content>"`. -/
def Blob.hash (b : Blob) : String :=
  GoodGit.hash (utf8Encode ("blob " ++ toString b.content.length) ++ 0 :: b.content)

/-! ## Decimal parsing (`str::parse::<usize>`) -/

/-- Accumulate decimal digits; fails on any non-digit character. -/
def parseDigits : List Char → Nat → Option Nat
  | [], acc => some acc
  | c :: cs, acc =>
    if 48 ≤ c.toNat ∧ c.toNat ≤ 57 then parseDigits cs (acc * 10 + (c.toNat - 48))
    else none

/-- Mirror of `str::parse::<usize>` on a 64-bit target: an optional leading
plus sign, one or more ASCII decimal digits, and the value must fit in
`usize`. -/
def parseUsize (s : String) : Option Nat :=
  let core := fun (cs : List Char) =>
    match cs with
    | [] => none
    | _ => (parseDigits cs 0).bind fun n =>
        if n < 2 ^ 64 then some n else none
  match s.toList with
  | '+' :: cs => core cs
  | cs => core cs

/-! ## Header parsing -/

/-- Mirror of `Iterator::position` on a byte slice: index of the first
occurrence. -/
def position (d : Nat) : List Nat → Option Nat
  | [] => none
  | x :: xs => if x = d then some 0 else (position d xs).map (· + 1)

/-- Rust slice `s[a..b]` (the caller is responsible for `a ≤ b ≤ s.len()`,
which the embedding checks before using this). -/
def listSlice (s : List Nat) (a b : Nat) : List Nat :=
  (s.drop a).take (b - a)

/-- Mirror of `Object::parse_header`: locate the first space and the first
NUL anywhere in the buffer, decode the prefix before the space as the type
tag, and parse the bytes strictly between space and NUL as the size.  When
the first NUL precedes the first space the Rust slice `s[space_index + 1 ..
null_index]` has its start beyond its end and the program aborts; this is the
`crashed` outcome, checked at exactly the point the slice is taken. -/
def parseHeader (s : List Nat) : Except GitErr (String × Nat × Nat) :=
  match position 32 s with
  | none => .error .headerFormat
  | some spaceIndex =>
    match position 0 s with
    | none => .error .headerFormat
    | some nullIndex =>
      match utf8DecodeStr (s.take spaceIndex) with
      | none => .error .encoding
      | some objectType =>
        if nullIndex < spaceIndex + 1 then .error .crashed
        else
          match utf8DecodeStr (listSlice s (spaceIndex + 1) nullIndex) with
          | none => .error .encoding
          | some sizeStr =>
            match parseUsize sizeStr with
            | none => .error .sizeFormat
            | some objectSize => .ok (objectType, objectSize, nullIndex)

/-! ## Tree-entry parsing -/

/-- Mirror of `BufRead::read_until` on a byte slice: the bytes read (up to
and including the delimiter, or all remaining bytes when the delimiter does
not occur), and the rest of the slice.  On an in-memory slice this operation
never fails. -/
def readUntil (d : Nat) : List Nat → List Nat × List Nat
  | [] => ([], [])
  | x :: xs =>
    if x = d then ([x], xs)
    else (x :: (readUntil d xs).1, (readUntil d xs).2)

/-- One iteration of the tree-entry loop on the remaining content.  Mirrors
the mode read (`read_until(b' ')` then dropping the final byte), the name
read (`read_until(b'\x00')` likewise), and the 20-byte digest read
(`read_exact`).  When a `read_until` consumed zero bytes the Rust code
evaluates `buf[..0 - 1]`, which aborts: the `crashed` outcome. -/
def parseEntryStep (content : List Nat) : Except GitErr (File × List Nat) :=
  let modeTaken := (readUntil 32 content).1
  let rest1 := (readUntil 32 content).2
  if modeTaken.length = 0 then .error .crashed
  else
    match utf8DecodeStr modeTaken.dropLast with
    | none => .error .encoding
    | some mode =>
      let nameTaken := (readUntil 0 rest1).1
      let rest2 := (readUntil 0 rest1).2
      if nameTaken.length = 0 then .error .crashed
      else
        match utf8DecodeStr nameTaken.dropLast with
        | none => .error .encoding
        | some name =>
          if rest2.length < 20 then .error .truncatedHash
          else .ok (⟨mode, name, hexEncode (rest2.take 20)⟩, rest2.drop 20)

/-- The tree-entry loop with explicit fuel; any fuel above the content length
is ample, since each non-failing iteration consumes at least one byte. -/
def parseTreeEntriesFuel : Nat → List Nat → Except GitErr (List File)
  | 0, _ => .error .crashed
  | fuel + 1, content =>
    if content = [] then .ok []
    else
      match parseEntryStep content with
      | .error e => .error e
      | .ok (f, rest) =>
        match parseTreeEntriesFuel fuel rest with
        | .error e => .error e
        | .ok fs => .ok (f :: fs)

/-- Mirror of the `while !content.is_empty()` loop of the tree branch of
`Object::from_bytes`. -/
def parseTreeEntries (content : List Nat) : Except GitErr (List File) :=
  parseTreeEntriesFuel (content.length + 1) content

/-- Mirror of `Object::from_bytes`: parse the header, take the content slice
one byte past the NUL, check the declared size, and dispatch on the type
tag. -/
def fromBytes (s : List Nat) : Except GitErr Object :=
  match parseHeader s with
  | .error e => .error e
  | .ok (objectType, objectSize, headerEnd) =>
    let content := s.drop (headerEnd + 1)
    if content.length ≠ objectSize then .error .sizeMismatch
    else if objectType = "blob" then .ok (.blob ⟨content⟩)
    else if objectType = "tree" then
      match parseTreeEntries content with
      | .error e => .error e
      | .ok files => .ok (.tree ⟨files⟩)
    else .error .unknownObjectType

/-! ## Raw tree records

A well-formed on-disk tree record, used to state the round-trip property of
the tree decoder. -/

/-- One on-disk tree record held as its three raw byte fields. -/
structure RawRecord where
  modeBytes : List Nat
  nameBytes : List Nat
  digest : List Nat
deriving DecidableEq, Repr

/-- The on-disk serialization of a record: `<mode>SP<name>NUL<digest>`. -/
def RawRecord.bytes (r : RawRecord) : List Nat :=
  r.modeBytes ++ 32 :: (r.nameBytes ++ 0 :: r.digest)

/-- Well-formedness of a record: no space in the mode field, no NUL in the
name field, both UTF-8 decodable, and a 20-byte digest. -/
def RawRecord.wf (r : RawRecord) : Prop :=
  32 ∉ r.modeBytes ∧ 0 ∉ r.nameBytes ∧
    (utf8DecodeStr r.modeBytes).isSome = true ∧
    (utf8DecodeStr r.nameBytes).isSome = true ∧
    r.digest.length = 20

instance (r : RawRecord) : Decidable r.wf := by
  unfold RawRecord.wf
  infer_instance

/-- The `File` a well-formed record decodes to. -/
def RawRecord.toFile (r : RawRecord) : File :=
  ⟨(utf8DecodeStr r.modeBytes).getD "", (utf8DecodeStr r.nameBytes).getD "",
    hexEncode r.digest⟩

/-! ## Helper lemmas -/

lemma position_eq_none (d : Nat) (l : List Nat) (h : d ∉ l) : position d l = none := by
  induction l with
  | nil => rfl
  | cons x xs ih =>
    simp only [List.mem_cons, not_or] at h
    have hx : ¬(x = d) := fun hh => h.1 hh.symm
    simp [position, hx, ih h.2]

lemma position_append_found (d : Nat) (l1 l2 : List Nat) (h : d ∉ l1) :
    position d (l1 ++ d :: l2) = some l1.length := by
  induction l1 with
  | nil => simp [position]
  | cons x xs ih =>
    simp only [List.mem_cons, not_or] at h
    have hx : ¬(x = d) := fun hh => h.1 hh.symm
    simp [position, hx, ih h.2]

lemma readUntil_found (d : Nat) (m r : List Nat) (h : d ∉ m) :
    readUntil d (m ++ d :: r) = (m ++ [d], r) := by
  induction m with
  | nil => simp [readUntil]
  | cons x xs ih =>
    simp only [List.mem_cons, not_or] at h
    have hx : ¬(x = d) := fun hh => h.1 hh.symm
    simp [readUntil, hx, ih h.2]

lemma readUntil_len (d : Nat) (l : List Nat) :
    (readUntil d l).1.length + (readUntil d l).2.length = l.length := by
  induction l with
  | nil => simp [readUntil]
  | cons x xs ih =>
    by_cases hx : x = d <;> simp [readUntil, hx] <;> omega

lemma parseEntryStep_decr {content : List Nat} {f : File} {rest : List Nat}
    (h : parseEntryStep content = .ok (f, rest)) : rest.length < content.length := by
  have h1 := readUntil_len 32 content
  have h2 := readUntil_len 0 (readUntil 32 content).2
  simp only [parseEntryStep] at h
  split at h
  · exact absurd h (by simp)
  · split at h
    · exact absurd h (by simp)
    · split at h
      · exact absurd h (by simp)
      · split at h
        · exact absurd h (by simp)
        · split at h
          · exact absurd h (by simp)
          · simp only [Except.ok.injEq, Prod.mk.injEq] at h
            obtain ⟨-, hrest⟩ := h
            subst hrest
            simp only [List.length_drop]
            omega

lemma parseTreeEntriesFuel_irrel : ∀ fuel content, content.length < fuel →
    parseTreeEntriesFuel fuel content = parseTreeEntries content := by
  intro fuel
  induction fuel using Nat.strong_induction_on with
  | _ fuel ih =>
    intro content hlt
    cases fuel with
    | zero => omega
    | succ f =>
      unfold parseTreeEntries
      by_cases hc : content = []
      · subst hc; rfl
      · simp only [parseTreeEntriesFuel, if_neg hc]
        cases hstep : parseEntryStep content with
        | error e => rfl
        | ok pr =>
          obtain ⟨f', rest⟩ := pr
          have hdec := parseEntryStep_decr hstep
          simp only [ih f (by omega) rest (by omega),
              ih content.length (by omega) rest hdec]

lemma parseTreeEntries_eq (content : List Nat) :
    parseTreeEntries content =
      if content = [] then .ok []
      else
        match parseEntryStep content with
        | .error e => .error e
        | .ok (f, rest) =>
          match parseTreeEntries rest with
          | .error e => .error e
          | .ok fs => .ok (f :: fs) := by
  conv_lhs => rw [parseTreeEntries]
  simp only [parseTreeEntriesFuel]
  by_cases hc : content = []
  · simp [hc]
  · simp only [if_neg hc]
    cases hstep : parseEntryStep content with
    | error e => rfl
    | ok pr =>
      obtain ⟨f', rest⟩ := pr
      have hdec := parseEntryStep_decr hstep
      simp only [parseTreeEntriesFuel_irrel content.length rest hdec]

lemma parseEntryStep_error_kinds {content : List Nat} {e : GitErr}
    (h : parseEntryStep content = .error e) :
    e = .crashed ∨ e = .encoding ∨ e = .truncatedHash := by
  simp only [parseEntryStep] at h
  split at h
  · simp only [Except.error.injEq] at h; simp [← h]
  · split at h
    · simp only [Except.error.injEq] at h; simp [← h]
    · split at h
      · simp only [Except.error.injEq] at h; simp [← h]
      · split at h
        · simp only [Except.error.injEq] at h; simp [← h]
        · split at h
          · simp only [Except.error.injEq] at h; simp [← h]
          · exact absurd h (by simp)

lemma parseTreeEntriesFuel_error_kinds : ∀ fuel (content : List Nat) (e : GitErr),
    parseTreeEntriesFuel fuel content = .error e →
    e = .crashed ∨ e = .encoding ∨ e = .truncatedHash := by
  intro fuel
  induction fuel with
  | zero =>
    intro content e h
    simp only [parseTreeEntriesFuel, Except.error.injEq] at h
    simp [← h]
  | succ f ih =>
    intro content e h
    simp only [parseTreeEntriesFuel] at h
    split at h
    · exact absurd h (by simp)
    · cases hstep : parseEntryStep content with
      | error e' =>
        rw [hstep] at h
        simp only [Except.error.injEq] at h
        exact h ▸ parseEntryStep_error_kinds hstep
      | ok pr =>
        obtain ⟨f', rest⟩ := pr
        rw [hstep] at h
        cases hrec : parseTreeEntriesFuel f rest with
        | error e' =>
          simp only [hrec, Except.error.injEq] at h
          exact h ▸ ih rest e' hrec
        | ok fs =>
          simp only [hrec] at h
          exact absurd h (by simp)

lemma parseTreeEntries_error_kinds {content : List Nat} {e : GitErr}
    (h : parseTreeEntries content = .error e) :
    e = .crashed ∨ e = .encoding ∨ e = .truncatedHash :=
  parseTreeEntriesFuel_error_kinds (content.length + 1) content e h

lemma parseEntryStep_record {m n tail : List Nat} {ms ns : String}
    (hm : 32 ∉ m) (hn : 0 ∉ n)
    (hms : utf8DecodeStr m = some ms) (hns : utf8DecodeStr n = some ns) :
    parseEntryStep (m ++ 32 :: (n ++ 0 :: tail)) =
      if tail.length < 20 then .error .truncatedHash
      else .ok (⟨ms, ns, hexEncode (tail.take 20)⟩, tail.drop 20) := by
  simp only [parseEntryStep, readUntil_found 32 m _ hm, readUntil_found 0 n tail hn,
    List.dropLast_concat, hms, hns, List.length_append, List.length_cons]
  simp

lemma length_hexEncode (l : List Nat) : (hexEncode l).length = 2 * l.length := by
  induction l with
  | nil => rfl
  | cons b bs ih =>
    simp only [hexEncode, String.length] at ih ⊢
    simp only [List.flatMap_cons, List.length_append, List.length_cons, List.length_nil] at ih ⊢
    omega

lemma length_sha1 (msg : List Nat) : (sha1 msg).length = 20 := by
  simp [sha1, wordBytes]

lemma drop_len_cons (P : List Nat) (a : Nat) (tail : List Nat) :
    (P ++ a :: tail).drop (P.length + 1) = tail := by
  induction P with
  | nil => rfl
  | cons x xs ih =>
    simp only [List.cons_append, List.length_cons, List.drop_succ_cons]
    exact ih

lemma parseTreeEntries_records : ∀ rs : List RawRecord, (∀ r ∈ rs, r.wf) →
    parseTreeEntries ((rs.map RawRecord.bytes).flatten) = .ok (rs.map RawRecord.toFile) := by
  intro rs
  induction rs with
  | nil => intro _; rfl
  | cons r rs ih =>
    intro hwf
    obtain ⟨h32, h0, hms', hns', hd⟩ := hwf r (List.mem_cons_self r rs)
    obtain ⟨ms, hms⟩ := Option.isSome_iff_exists.mp hms'
    obtain ⟨ns, hns⟩ := Option.isSome_iff_exists.mp hns'
    have hrest := ih (fun x hx => hwf x (List.mem_cons_of_mem r hx))
    rw [List.map_cons, List.flatten_cons, parseTreeEntries_eq]
    rw [if_neg (by simp [RawRecord.bytes])]
    have hassoc : RawRecord.bytes r ++ (rs.map RawRecord.bytes).flatten
        = r.modeBytes ++ 32 :: (r.nameBytes ++ 0 ::
            (r.digest ++ (rs.map RawRecord.bytes).flatten)) := by
      simp [RawRecord.bytes]
    rw [hassoc, parseEntryStep_record h32 h0 hms hns]
    rw [if_neg (by rw [List.length_append, hd]; omega)]
    have htake : (r.digest ++ (rs.map RawRecord.bytes).flatten).take 20 = r.digest := by
      rw [← hd]; exact List.take_left _ _
    have hdrop : (r.digest ++ (rs.map RawRecord.bytes).flatten).drop 20 =
        (rs.map RawRecord.bytes).flatten := by
      rw [← hd]; exact List.drop_left _ _
    simp [htake, hdrop, hrest, RawRecord.toFile, hms, hns]

/-! ## Claim theorems -/

/-- C1: the claim states that `Object::from_bytes` always returns a decoded
object or one of the specified error kinds and never crashes, in particular
on buffers where the first NUL precedes the first space and on tree content
ending right after a mode field.  Evaluating the embedding at both named
inputs shows the decode reaches the `crashed` outcome (a Rust runtime abort:
an out-of-range slice `s[space_index + 1 .. null_index]` in the first case,
the `name[..0 - 1]` subtraction failure in the second), not an error return:
the code contradicts the propagation policy. -/
theorem c1_decode_crashes :
    fromBytes [0, 32] = .error .crashed ∧
    fromBytes (utf8Encode "tree 7\x00100644 ") = .error .crashed := by
  constructor
  · rfl
  · rfl

/-- C2: the claim states that a tree entry with no space left for the mode or
no NUL left for the name fails with `TruncatedEntryError`.  Evaluating the
embedding: with a name field lacking its NUL (`"tree 8\x00100644 x"`) the
decode silently drops the final name byte and then fails with
`TruncatedHashError`; with content lacking a space (`"tree 3\x00abc"`) the
decode reaches the `crashed` outcome.  `TruncatedEntryError` is never
produced, because `read_until` on an in-memory slice cannot fail. -/
theorem c2_truncation_error_kind :
    fromBytes (utf8Encode "tree 8\x00100644 x") = .error .truncatedHash ∧
    fromBytes (utf8Encode "tree 3\x00abc") = .error .crashed := by
  constructor
  · rfl
  · rfl

/-- C3: the blob content hash is the SHA-1 digest, as 40 lowercase hex
characters, of the exact envelope `"blob <byte-length>\x00<content>"`, so it
coincides with the generic hasher on the raw envelope bytes; the reference
vector for content `"what is up, doc?"` holds. -/
theorem c3_blob_hash :
    (∀ content : List Nat,
      Blob.hash ⟨content⟩ =
        GoodGit.hash (utf8Encode ("blob " ++ toString content.length) ++ 0 :: content)) ∧
    (∀ content : List Nat, (Blob.hash ⟨content⟩).length = 40) ∧
    Blob.hash ⟨utf8Encode "what is up, doc?"⟩ =
      "bd9dbf5aae1a3862dd1526723246b20206e5fc37" ∧
    GoodGit.hash (utf8Encode "blob 16\x00what is up, doc?") =
      "bd9dbf5aae1a3862dd1526723246b20206e5fc37" := by
  refine ⟨fun content => rfl, fun content => ?_, by decide, by decide⟩
  simp [Blob.hash, GoodGit.hash, length_hexEncode, length_sha1]

/-- C4 counterexample: the claim asserts distinct kinds for the listed modes,
but the code maps both `"100644"` and `"100755"` to the same kind string
`"blob"`. -/
theorem c4_counterexample :
    (File.mk "100644" "a" "h").typeStr = "blob" ∧
    (File.mk "100755" "a" "h").typeStr = "blob" ∧
    (File.mk "100644" "a" "h").typeStr = (File.mk "100755" "a" "h").typeStr := by
  refine ⟨rfl, rfl, rfl⟩

/-- C4 (amended): entry-kind classification is a total function of the mode
string, factoring through the spec table `specEntryKind` followed by the
rendering `kindRender`; the spec-level kinds of the listed modes (plus an
unrecognized one) are pairwise distinct, but the rendering collapses
`RegularFile` and `ExecutableFile` to the same string `"blob"`, so the
rendered kinds of the listed modes are distinct only outside that pair. -/
theorem c4_entry_kind_total :
    (∀ f : File, f.typeStr = kindRender (specEntryKind f.mode)) ∧
    ([specEntryKind "100644", specEntryKind "100755", specEntryKind "120000",
      specEntryKind "40000", specEntryKind "160000", specEntryKind "12345"] :
        List EntryKind).Nodup ∧
    ([(File.mk "100755" "" "").typeStr, (File.mk "120000" "" "").typeStr,
      (File.mk "40000" "" "").typeStr, (File.mk "160000" "" "").typeStr,
      (File.mk "12345" "" "").typeStr] : List String).Nodup ∧
    kindRender .regularFile = kindRender .executableFile := by
  refine ⟨?_, by decide, by decide, rfl⟩
  intro f
  unfold File.typeStr specEntryKind
  split_ifs <;> rfl

/-- C5: parsing the header of `"blob 16\x00"` followed by any byte sequence
returns type tag `"blob"`, declared size 16 and NUL offset 7. -/
theorem c5_parse_header_any_tail : ∀ X : List Nat,
    parseHeader ([98, 108, 111, 98, 32, 49, 54, 0] ++ X) = .ok ("blob", 16, 7) :=
  fun _ => rfl

/-- C6: for every buffer whose header parses successfully, decoding fails
with `SizeMismatchError` exactly when the length of the content slice
starting one byte past the header NUL differs from the declared size; in
particular `"blob 0\x00hi"` fails this way. -/
theorem c6_size_mismatch_iff :
    (∀ (s : List Nat) (t : String) (sz he : Nat),
      parseHeader s = .ok (t, sz, he) →
      (fromBytes s = .error .sizeMismatch ↔ (s.drop (he + 1)).length ≠ sz)) ∧
    fromBytes [98, 108, 111, 98, 32, 48, 0, 104, 105] = .error .sizeMismatch := by
  constructor
  · intro s t sz he h
    simp only [fromBytes, h]
    by_cases hlen : (s.drop (he + 1)).length ≠ sz
    · rw [if_pos hlen]
      exact iff_of_true rfl hlen
    · rw [if_neg hlen]
      have hne : (if t = "blob" then Except.ok (Object.blob ⟨s.drop (he + 1)⟩)
          else if t = "tree" then
            match parseTreeEntries (s.drop (he + 1)) with
            | .error e => .error e
            | .ok files => .ok (.tree ⟨files⟩)
          else .error .unknownObjectType) ≠ Except.error GitErr.sizeMismatch := by
        by_cases hb : t = "blob"
        · simp [hb]
        · by_cases ht : t = "tree"
          · simp only [hb, ht, if_false, if_true]
            cases hpt : parseTreeEntries (s.drop (he + 1)) with
            | error e =>
              rcases parseTreeEntries_error_kinds hpt with h' | h' | h' <;>
                simp [h']
            | ok fs => simp
          · simp [hb, ht]
      exact iff_of_false hne hlen
  · rfl

/-- C6 witness: the general equivalence applied to the buffer
`"blob 0\x00hi"`, whose header parses as `("blob", 0, 6)`. -/
theorem c6_size_mismatch_iff_witness :
    parseHeader [98, 108, 111, 98, 32, 48, 0, 104, 105] = .ok ("blob", 0, 6) ∧
    (fromBytes [98, 108, 111, 98, 32, 48, 0, 104, 105] = .error .sizeMismatch ↔
      (([98, 108, 111, 98, 32, 48, 0, 104, 105] : List Nat).drop 7).length ≠ 0) :=
  ⟨by decide, c6_size_mismatch_iff.1 _ "blob" 0 6 (by decide)⟩

/-- C7: header parsing fails with `HeaderFormatError` on every buffer missing
a space byte or missing a NUL byte. -/
theorem c7_header_format_missing_delims : ∀ s : List Nat, 32 ∉ s ∨ 0 ∉ s →
    parseHeader s = .error .headerFormat := by
  intro s h
  rcases h with h | h
  · simp [parseHeader, position_eq_none 32 s h]
  · cases hp : position 32 s with
    | none => simp [parseHeader, hp]
    | some i => simp [parseHeader, hp, position_eq_none 0 s h]

/-- C7 witness: the buffer `"blob"`, which contains neither a space nor a
NUL, fails with the header-format error. -/
theorem c7_header_format_missing_delims_witness :
    (32 ∉ ([98, 108, 111, 98] : List Nat) ∨ 0 ∉ ([98, 108, 111, 98] : List Nat)) ∧
    parseHeader [98, 108, 111, 98] = .error .headerFormat :=
  ⟨Or.inl (by decide),
    c7_header_format_missing_delims [98, 108, 111, 98] (Or.inl (by decide))⟩

/-- C8: once a tree entry's mode and name have been read, fewer than 20
remaining content bytes make the decode fail with `TruncatedHashError`; in
particular a tree whose final record carries a single hash byte fails this
way. -/
theorem c8_truncated_hash :
    (∀ (m n tail : List Nat) (ms ns : String), 32 ∉ m → 0 ∉ n →
      utf8DecodeStr m = some ms → utf8DecodeStr n = some ns → tail.length < 20 →
      parseTreeEntries (m ++ 32 :: (n ++ 0 :: tail)) = .error .truncatedHash) ∧
    fromBytes (utf8Encode "tree 18\x00100644 file1.txt\x00" ++ [1]) =
      .error .truncatedHash := by
  constructor
  · intro m n tail ms ns hm hn hms hns htail
    rw [parseTreeEntries_eq, if_neg (by simp), parseEntryStep_record hm hn hms hns,
      if_pos htail]
  · rfl

/-- C8 witness: the general statement applied to the record
`"100644 f\x00"` followed by a single digest byte. -/
theorem c8_truncated_hash_witness :
    32 ∉ ([49, 48, 48, 54, 52, 52] : List Nat) ∧ 0 ∉ ([102] : List Nat) ∧
    utf8DecodeStr [49, 48, 48, 54, 52, 52] = some "100644" ∧
    utf8DecodeStr [102] = some "f" ∧ ([1] : List Nat).length < 20 ∧
    parseTreeEntries ([49, 48, 48, 54, 52, 52] ++ 32 :: ([102] ++ 0 :: [1])) =
      .error .truncatedHash :=
  ⟨by decide, by decide, by decide, by decide, by decide,
    c8_truncated_hash.1 [49, 48, 48, 54, 52, 52] [102] [1] "100644" "f"
      (by decide) (by decide) (by decide) (by decide) (by decide)⟩

/-- C9: decoding a well-formed tree envelope — a `"tree "` header whose size
digits declare exactly the content length, followed by a concatenation of
well-formed records `<mode>SP<name>NUL<20 raw bytes>` — yields a `Tree` whose
entries appear in on-disk order, one per record, with the mode and name
decoded from UTF-8 and the hash the lowercase hex encoding of the 20 raw
digest bytes; no sorting is performed. -/
theorem c9_tree_decode : ∀ (rs : List RawRecord) (sizeBytes : List Nat),
    (∀ r ∈ rs, r.wf) → sizeBytes ≠ [] →
    (∀ b ∈ sizeBytes, 48 ≤ b ∧ b ≤ 57) →
    parseUsize ((utf8DecodeStr sizeBytes).getD "") =
      some ((rs.map RawRecord.bytes).flatten).length →
    fromBytes (116 :: 114 :: 101 :: 101 :: 32 ::
        (sizeBytes ++ 0 :: (rs.map RawRecord.bytes).flatten)) =
      .ok (.tree ⟨rs.map RawRecord.toFile⟩) := by
  intro rs sizeBytes hwf hne hdig hval
  have h0 : 0 ∉ sizeBytes := fun hmem => by have := hdig 0 hmem; omega
  cases hdec : utf8DecodeStr sizeBytes with
  | none =>
    rw [hdec] at hval
    simp only [Option.getD_none] at hval
    rw [show parseUsize "" = none from rfl] at hval
    exact Option.noConfusion hval
  | some sizeStr =>
    rw [hdec] at hval
    simp only [Option.getD_some] at hval
    have hpos32 : position 32 (116 :: 114 :: 101 :: 101 :: 32 ::
        (sizeBytes ++ 0 :: (rs.map RawRecord.bytes).flatten)) = some 4 := rfl
    have hpos0 : position 0 (116 :: 114 :: 101 :: 101 :: 32 ::
        (sizeBytes ++ 0 :: (rs.map RawRecord.bytes).flatten)) =
        some (sizeBytes.length + 5) := by
      have hinner := position_append_found 0 sizeBytes
        ((rs.map RawRecord.bytes).flatten) h0
      simp [position, hinner]
    have htake4 : (116 :: 114 :: 101 :: 101 :: 32 ::
        (sizeBytes ++ 0 :: (rs.map RawRecord.bytes).flatten)).take 4 =
        [116, 114, 101, 101] := rfl
    have hslice : listSlice (116 :: 114 :: 101 :: 101 :: 32 ::
        (sizeBytes ++ 0 :: (rs.map RawRecord.bytes).flatten)) 5
        (sizeBytes.length + 5) = sizeBytes := by
      unfold listSlice
      rw [show (116 :: 114 :: 101 :: 101 :: 32 ::
        (sizeBytes ++ 0 :: (rs.map RawRecord.bytes).flatten)).drop 5 =
        sizeBytes ++ 0 :: (rs.map RawRecord.bytes).flatten from rfl]
      rw [show sizeBytes.length + 5 - 5 = sizeBytes.length from by omega]
      exact List.take_left _ _
    have hheader : parseHeader (116 :: 114 :: 101 :: 101 :: 32 ::
        (sizeBytes ++ 0 :: (rs.map RawRecord.bytes).flatten)) =
        .ok ("tree", ((rs.map RawRecord.bytes).flatten).length, sizeBytes.length + 5) := by
      simp only [parseHeader, hpos32, hpos0, htake4,
        show utf8DecodeStr [116, 114, 101, 101] = some "tree" from rfl]
      rw [if_neg (by omega)]
      simp only [hslice, hdec, hval]
    simp only [fromBytes, hheader]
    have hdropc : (116 :: 114 :: 101 :: 101 :: 32 ::
        (sizeBytes ++ 0 :: (rs.map RawRecord.bytes).flatten)).drop
        (sizeBytes.length + 5 + 1) = (rs.map RawRecord.bytes).flatten := by
      rw [show (116 :: 114 :: 101 :: 101 :: 32 ::
        (sizeBytes ++ 0 :: (rs.map RawRecord.bytes).flatten)) =
        (([116, 114, 101, 101, 32] ++ sizeBytes) ++
          (0 :: (rs.map RawRecord.bytes).flatten)) from by simp]
      rw [show sizeBytes.length + 5 + 1 =
        ([116, 114, 101, 101, 32] ++ sizeBytes).length + 1 from by simp]
      exact drop_len_cons _ _ _
    rw [hdropc]
    rw [if_neg (by simp)]
    simp [parseTreeEntries_records rs hwf]

/-- C9 witness records: the three records of the reference tree (two regular
files and one subtree). -/
def testRecords : List RawRecord :=
  [⟨[49, 48, 48, 54, 52, 52], [102, 105, 108, 101, 49, 46, 116, 120, 116],
    [1, 2, 3, 4, 5, 6, 7, 8, 9, 10, 11, 12, 13, 14, 15, 16, 17, 18, 19, 20]⟩,
   ⟨[49, 48, 48, 54, 52, 52], [102, 105, 108, 101, 50, 46, 116, 120, 116],
    [81, 82, 83, 84, 85, 86, 87, 88, 89, 90, 91, 92, 93, 94, 95, 96, 97, 98, 99, 100]⟩,
   ⟨[52, 48, 48, 48, 48], [102, 111, 108, 100, 101, 114],
    [129, 130, 131, 132, 133, 134, 135, 136, 137, 138, 139, 140, 141, 142, 143,
     144, 145, 146, 147, 148]⟩]

/-- C9 witness: the reference three-record tree envelope (`"tree 107\x00"`
followed by the records) decodes to the expected entry list. -/
theorem c9_tree_decode_witness :
    fromBytes (116 :: 114 :: 101 :: 101 :: 32 ::
        ([49, 48, 55] ++ 0 :: (testRecords.map RawRecord.bytes).flatten)) =
      .ok (.tree ⟨testRecords.map RawRecord.toFile⟩) :=
  c9_tree_decode testRecords [49, 48, 55] (by decide) (by decide) (by decide)
    (by decide)

/-- C10: the tree-entry loop strictly advances the cursor on every iteration
that does not fail, and on every content slice the loop reaches a result (a
full entry list or an error) after finitely many iterations — the decode is
total, and a failure carries no partial entry list. -/
theorem c10_cursor_advance :
    (∀ (content : List Nat) (f : File) (rest : List Nat), content ≠ [] →
      parseEntryStep content = .ok (f, rest) → rest.length < content.length) ∧
    (∀ content : List Nat, (∃ fs, parseTreeEntries content = .ok fs) ∨
      ∃ e, parseTreeEntries content = .error e) := by
  constructor
  · intro content f rest _ h
    exact parseEntryStep_decr h
  · intro content
    cases h : parseTreeEntries content with
    | ok fs => exact Or.inl ⟨fs, rfl⟩
    | error e => exact Or.inr ⟨e, rfl⟩

/-- C10 witness: one successful iteration on the single record
`"100644 a\x00"` plus twenty digest bytes consumes the whole 29-byte slice. -/
theorem c10_cursor_advance_witness :
    ([49, 48, 48, 54, 52, 52, 32, 97, 0, 55, 55, 55, 55, 55, 55, 55, 55, 55, 55,
      55, 55, 55, 55, 55, 55, 55, 55, 55, 55] : List Nat) ≠ [] ∧
    parseEntryStep [49, 48, 48, 54, 52, 52, 32, 97, 0, 55, 55, 55, 55, 55, 55,
        55, 55, 55, 55, 55, 55, 55, 55, 55, 55, 55, 55, 55, 55] =
      .ok (⟨"100644", "a", "3737373737373737373737373737373737373737"⟩, []) ∧
    ([] : List Nat).length <
      ([49, 48, 48, 54, 52, 52, 32, 97, 0, 55, 55, 55, 55, 55, 55, 55, 55, 55,
        55, 55, 55, 55, 55, 55, 55, 55, 55, 55, 55] : List Nat).length :=
  ⟨by decide, by decide,
    c10_cursor_advance.1 _ ⟨"100644", "a", "3737373737373737373737373737373737373737"⟩ []
      (by decide) (by decide)⟩

end GoodGit
